/-
  Verification of the mgotools log-analysis toolkit against its
  natural-language specification.

  The development shallowly embeds the Go sources:
  * `parser/db_34.go`, `db_36` (src/unnamed/part_003), `db_40.go` — the
    version-parser `Check` guards;
  * the base-line tokenizer (`Log.NewBase` / `parseCDateString`, second half
    of `db_40.go`);
  * the `query` command (second half of src/unnamed/part_001): per-line
    aggregation, the p95 percentile computation at `Finish`, and the table
    sort comparator;
  * the mongo JSON-ish parser, the number promotion rules and the pattern
    canonicalizer.  Their implementations are not part of the source tree
    (only their test files are), so those definitions are modelled from the
    specification, constrained by the in-tree test files.

  Machine integers are modelled as `Int`/`Nat`; Go `float64` computations are
  modelled exactly (comments justify, where it matters, that double rounding
  cannot change the branch taken on the reachable inputs).
-/
import Mathlib

namespace Mgotools

/-! ### Severity and base records (parser/record)

The repository contains two refactor generations of the `record.Base`
structure: the 3.4/3.6 parsers read `base.RawSeverity`, the 4.0 parser reads
`base.Severity`.  Both fields are carried here so each `Check` can be
embedded exactly as written. -/

/-- A parsed severity tag: `record.SeverityNone` or one of `F E W I D`. -/
inductive Severity where
  | none
  | letter (c : Char)
deriving DecidableEq

/-- The fields of `record.Base` that the version `Check` guards consult:
the ctime-date flag, the severity (both refactor generations) and the raw
component. -/
structure BaseRec where
  cString      : Bool
  rawSeverity  : Severity
  severity     : Severity
  rawComponent : String
deriving DecidableEq

/-- `Version34Parser.Check` (src/parser/db_34.go:18-22):
`!base.CString && base.RawSeverity != record.SeverityNone && base.RawComponent != ""`. -/
def version34Check (base : BaseRec) : Bool :=
  !base.cString && decide (base.rawSeverity ≠ Severity.none) &&
    decide (base.rawComponent ≠ "")

/-- `Version36Parser.Check` (src/unnamed/part_003:52-55):
`base.RawSeverity != record.SeverityNone && base.RawComponent != ""`.
Note: no `CString` test. -/
def version36Check (base : BaseRec) : Bool :=
  decide (base.rawSeverity ≠ Severity.none) && decide (base.rawComponent ≠ "")

/-- `Version40Parser.Check` (src/parser/db_40.go:49-52):
`base.Severity != record.SeverityNone && base.RawComponent != ""`.
Note: no `CString` test. -/
def version40Check (base : BaseRec) : Bool :=
  decide (base.severity ≠ Severity.none) && decide (base.rawComponent ≠ "")

/-! ### Base-line tokenizer: the ctime date (source second half of db_40.go)

`parseCDateString` slurps four whitespace-separated words (missing words stay
`""`, exactly as the Go code leaves `make([]string, 4)` entries untouched when
`SlurpWord` fails) and then runs

```
switch {
case !internal.IsDay(target[0]):
case !internal.IsMonth(target[1]):
case !internal.IsNumeric(target[2]):
case !internal.IsTime(target[3]):
    r.Seek(start, 0)
    return ""
}
return strings.Join(target, " ")
```

A Go `switch` runs the body of the *first* true case only; the first three
cases have empty bodies, so the reset-and-return-empty happens exactly when
the first three tokens are valid and the fourth is not a time.

The `internal.IsDay/IsMonth/IsNumeric/IsTime` helpers are not part of the
source tree; they are modelled from the spec (§4.3: weekday abbreviation
`Sun..Sat`, month abbreviation, digit string, `HH:MM:SS` clock). -/

/-- Modelled from the spec: `internal.IsDay`, true on the weekday
abbreviations `Sun`..`Sat` (the helper is not in the source tree). -/
def isDay (s : String) : Bool :=
  s ∈ ["Sun", "Mon", "Tue", "Wed", "Thu", "Fri", "Sat"]

/-- Modelled from the spec: `internal.IsMonth`, true on the month
abbreviations `Jan`..`Dec` (the helper is not in the source tree). -/
def isMonth (s : String) : Bool :=
  s ∈ ["Jan", "Feb", "Mar", "Apr", "May", "Jun",
       "Jul", "Aug", "Sep", "Oct", "Nov", "Dec"]

/-- Modelled from the spec: `internal.IsNumeric`, a non-empty digit string
(the helper is not in the source tree). -/
def isNumeric (s : String) : Bool :=
  !s.isEmpty && s.toList.all Char.isDigit

/-- Modelled from the spec: `internal.IsTime`, a `HH:MM:SS` clock string
(the helper is not in the source tree). -/
def isTime (s : String) : Bool :=
  match s.toList with
  | [h1, h2, c1, m1, m2, c2, s1, s2] =>
      h1.isDigit && h2.isDigit && c1 = ':' && m1.isDigit && m2.isDigit &&
        c2 = ':' && s1.isDigit && s2.isDigit
  | _ => false

/-- The four words `parseCDateString` slurps: the `i`-th upcoming word, or
`""` when the line has fewer than `i+1` words (Go leaves the `make` slots
empty). -/
def cdateWord (ws : List String) (i : Nat) : String := ws.getD i ""

/-- `strings.Join(target, " ")`. -/
def joinWords : List String → String
  | [] => ""
  | [w] => w
  | w :: ws => w ++ " " ++ joinWords ws

/-- `parseCDateString` (src/parser/db_40.go:466-486) over the line's word
list.  Returns the joined four-token date, or `""` (after a cursor reset)
when the switch falls into the `!IsTime` case. -/
def parseCDateString (ws : List String) : String :=
  let t0 := cdateWord ws 0
  let t1 := cdateWord ws 1
  let t2 := cdateWord ws 2
  let t3 := cdateWord ws 3
  if ¬ isDay t0 then joinWords [t0, t1, t2, t3]
  else if ¬ isMonth t1 then joinWords [t0, t1, t2, t3]
  else if ¬ isNumeric t2 then joinWords [t0, t1, t2, t3]
  else if ¬ isTime t3 then ""
  else joinWords [t0, t1, t2, t3]

/-- The date phase of `Log.NewBase` (src/parser/db_40.go:353-369 of the
second embedded file): if the first word is a weekday the ctime branch sets
`RawDate = parseCDateString(...)`, `CString = true`; an empty raw date (or an
exhausted line) then yields `ErrorParsingDate`.  The ISO branch is
abstracted by its guard. -/
def newBaseDate (ws : List String) (isIsoFirst : Bool) :
    Except String (String × Bool) :=
  if isDay (cdateWord ws 0) then
    let d := parseCDateString ws
    if ws.length ≤ 4 ∨ d = "" then Except.error "unrecognized date format"
    else Except.ok (d, true)
  else if isIsoFirst then
    if ws.length ≤ 1 ∨ cdateWord ws 0 = "" then
      Except.error "unrecognized date format"
    else Except.ok (cdateWord ws 0, false)
  else Except.error "unrecognized date format"

/-! ### Mongo values and the pattern canonicalizer (spec §4.5)

The `mongo` package's `Pattern`/`NewPattern`/`StringCompact` implementations
are not part of the source tree — only their test file
(src/unnamed/part_000) is.  The definitions below are modelled from the
spec, and the test vectors of `TestPattern_NewPattern` are re-checked
against them. -/

/-- A mongo value as used by filter documents and patterns: scalars, the
pattern sentinel `V`, `Object` (ordered association list) and `Array`. -/
inductive MValue where
  | int (n : Int)
  | str (s : String)
  | boolean (b : Bool)
  | objectId (bytes : List Nat)
  | v
  | obj (fields : List (String × MValue))
  | arr (elems : List MValue)

/-- Keys treated as boolean connectives at rule 1 of the canonicalizer. -/
def isConnective (k : String) : Bool :=
  k ∈ ["$and", "$or", "$nor"]

/-- Operators whose operand list collapses to a single `V` (spec §4.5 rule
2: `$in`, `$nin`, `$all`). -/
def isCollapseList (k : String) : Bool :=
  k ∈ ["$in", "$nin", "$all"]

/-- Geospatial envelope operators (spec §4.5 rule 2). -/
def isGeoOp (k : String) : Bool :=
  k ∈ ["$geoWithin", "$geoIntersects", "$near", "$nearSphere"]

/-- First character is `$`. -/
def startsDollar (s : String) : Bool :=
  match s.data with
  | c :: _ => c = '$'
  | [] => false

/-- True when every key of the object starts with `$` (constraint
envelope test of rule 2); the empty object is not an envelope. -/
def isEnvelope (fields : List (String × MValue)) : Bool :=
  !fields.isEmpty && fields.all (fun kv => startsDollar kv.1)

/-- True when every array element is an object (rule 4). -/
def allObjects (elems : List MValue) : Bool :=
  elems.all (fun x => match x with | .obj _ => true | _ => false)

/-- Geo-envelope body (rule 2, `$geoWithin` &c.): preserve the inner keys;
an array value becomes an array of `V` of the same outer length, an object
value keeps its keys with every leaf `V`, and any scalar becomes `V`. -/
def geoFields : List (String × MValue) → List (String × MValue)
  | [] => []
  | (k, val) :: rest =>
      (k, match val with
          | .arr l => .arr (l.map (fun _ => MValue.v))
          | .obj o => .obj (o.map (fun kv => (kv.1, MValue.v)))
          | _ => MValue.v) :: geoFields rest

mutual

/-- Modelled from the spec (§4.5): canonicalize one element of a connective
array — objects recurse as filter documents, arrays recurse elementwise,
scalars become `V`. -/
def canonElem : MValue → MValue
  | .obj o => .obj (canonObject o)
  | .arr l => .arr (canonElems l)
  | _ => MValue.v
termination_by structural x => x

/-- Canonicalize the elements of a connective array, in order. -/
def canonElems : List MValue → List MValue
  | [] => []
  | x :: xs => canonElem x :: canonElems xs
termination_by structural l => l

/-- Modelled from the spec (§4.5): canonicalize a filter document, field by
field; connective keys take rule 1, other fields take rules 2-5. -/
def canonObject : List (String × MValue) → List (String × MValue)
  | [] => []
  | (k, val) :: rest =>
      (k, if isConnective k then canonConnective val else canonField val)
        :: canonObject rest
termination_by structural l => l

/-- Rule 1: the value of `$and`/`$or`/`$nor` is an array whose elements are
canonicalized independently (a non-array value, which the spec does not
provide for, collapses to `V`). -/
def canonConnective : MValue → MValue
  | .arr l => .arr (canonElems l)
  | _ => MValue.v
termination_by structural x => x

/-- Rules 2-5 for a non-connective field value: a constraint envelope keeps
its `$`-keys and canonicalizes their operands; an array of objects becomes
the array of canonicalized objects; every scalar, plain object or array of
scalars becomes `V`. -/
def canonField : MValue → MValue
  | .obj o => if isEnvelope o then .obj (canonEnvelope o) else MValue.v
  | .arr l => if allObjects l then .arr (canonElems l) else MValue.v
  | _ => MValue.v
termination_by structural x => x

/-- The `$elemMatch` operand: an object recurses as a filter document,
anything else collapses to `V`. -/
def canonElemMatch : MValue → MValue
  | .obj i => .obj (canonObject i)
  | _ => MValue.v
termination_by structural x => x

/-- A geo operator's operand: an object maps through `geoFields`, anything
else collapses to `V`. -/
def canonGeo : MValue → MValue
  | .obj g => .obj (geoFields g)
  | _ => MValue.v

/-- Rule 2, the constraint envelope: `$in`/`$nin`/`$all` collapse to a
single `V` whatever their operand; `$elemMatch` recurses; geo operators map
their object operand through `geoFields`; every other operator's operand
becomes `V`. -/
def canonEnvelope : List (String × MValue) → List (String × MValue)
  | [] => []
  | (k, val) :: rest =>
      (k, if isCollapseList k then MValue.v
          else if k = "$elemMatch" then canonElemMatch val
          else if isGeoOp k then canonGeo val
          else MValue.v) :: canonEnvelope rest
termination_by structural l => l

end

/-- `mongo.Pattern`: a canonicalized object plus the `valid` flag. -/
structure MongoPattern where
  pattern : List (String × MValue)
  valid : Bool

/-- Modelled from the spec: `mongo.NewPattern` canonicalizes the filter and
marks the result valid. -/
def NewPattern (o : List (String × MValue)) : MongoPattern :=
  ⟨canonObject o, true⟩

/-- Key-wise insertion sort of rendered fields (the spec requires
`StringCompact` to be key-sorted at each level). -/
def sortRendered (l : List (String × String)) : List (String × String) :=
  List.insertionSort (fun p q => p.1 ≤ q.1) l

mutual

/-- Modelled from the spec: the compact rendering of one value — `V` prints
as `V`, objects are key-sorted, comma-joined and brace-wrapped without
whitespace, arrays preserve element order. -/
def renderValue : MValue → String
  | .int n => toString n
  | .str s => "\"" ++ s ++ "\""
  | .boolean b => if b then "true" else "false"
  | .objectId _ => "ObjectId"
  | .v => "V"
  | .obj o =>
      "\x7b" ++
        String.intercalate ","
          ((sortRendered (renderFields o)).map (fun kv => kv.1 ++ ":" ++ kv.2))
        ++ "\x7d"
  | .arr l => "[" ++ String.intercalate "," (renderElems l) ++ "]"
termination_by structural x => x

/-- Render each field's value, keeping the key for sorting. -/
def renderFields : List (String × MValue) → List (String × String)
  | [] => []
  | (k, val) :: rest => (k, renderValue val) :: renderFields rest
termination_by structural l => l

/-- Render array elements in order. -/
def renderElems : List MValue → List String
  | [] => []
  | x :: xs => renderValue x :: renderElems xs
termination_by structural l => l

end

/-- `Pattern.StringCompact`: the stable whitespace-free key-sorted text form
of a pattern. -/
def StringCompact (p : MongoPattern) : String :=
  renderValue (.obj p.pattern)

/-! ### The `query` command (second half of src/unnamed/part_001)

The aggregation state, its per-line update, the `Finish`-phase p95
computation and the table sort comparator, embedded from the Go source.
`float64` fields are modelled by `F64` (a rational or NaN); the comments at
`finishRow` justify that exact arithmetic matches the double arithmetic on
every reachable branch. -/

/-- A Go `float64` as used by the query table: an exact rational value or
NaN.  (Every float the query command computes is either the default `0`, a
55-bit-integer-valued sample, or the average of two samples, all exactly
representable; NaN is the only other value its code can mention.) -/
inductive F64 where
  | num (q : ℚ)
  | nan
deriving DecidableEq

/-- Go `==` on `float64`: NaN compares unequal to everything. -/
def f64Eq : F64 → F64 → Bool
  | .num p, .num q => decide (p = q)
  | _, _ => false

/-- Go `>=` on `float64`: false whenever either side is NaN. -/
def f64Ge : F64 → F64 → Bool
  | .num p, .num q => decide (q ≤ p)
  | _, _ => false

/-- `math.MaxInt64`, the initial `Min` of a fresh pattern bucket. -/
def maxInt64 : Int := 2 ^ 63 - 1

/-- `N95MaxSamples = 16 * 1024 * 1024` (src/unnamed/part_001:184). -/
def N95MaxSamples : Nat := 16 * 1024 * 1024

/-- One `queryPattern` bucket: the embedded `formatting.Pattern` row
(namespace, operation, pattern string, count/min/max/sum, 95th percentile)
plus the `p95` sample vector.  The `sync.Mutex` field is vestigial state
with no data content and is not modelled. -/
structure QueryPatternState where
  Namespace : String
  Operation : String
  Pattern : String
  Count : Int
  Min : Int
  Max : Int
  Sum : Int
  N95Percentile : F64
  cursorId : Int
  p95 : List Int
deriving DecidableEq

/-- A fresh bucket as built in `query.Run` (part_001:332-342): only `Min`
(to `math.MaxInt64`) and the three identifying strings are set; every other
field is the Go zero value.  (`make([]int64, 0, N95MaxSamples)` sets the
*capacity* only — the vector starts empty.) -/
def newQueryPattern (ns op pat : String) : QueryPatternState :=
  { Namespace := ns, Operation := op, Pattern := pat,
    Count := 0, Min := maxInt64, Max := 0, Sum := 0,
    N95Percentile := .num 0, cursorId := 0, p95 := [] }

/-- `query.update` (part_001:442-455): increment the count, add the
duration to the sum, append it to the sample vector unconditionally, and
fold min/max. -/
def queryUpdate (s : QueryPatternState) (dur : Int) : QueryPatternState :=
  let s := { s with Count := s.Count + 1, Sum := s.Sum + dur,
                    p95 := s.p95 ++ [dur] }
  let s := if dur > s.Max then { s with Max := dur } else s
  if dur < s.Min then { s with Min := dur } else s

/-- The ascending sort of the sample vector performed at the top of
`query.values` (part_001:460): `sort.Slice(p95, p95[i] <= p95[j])`.
Modelled as insertion sort — a sorted permutation, which is all the Go sort
guarantees here. -/
def sortSamples (l : List Int) : List Int :=
  List.insertionSort (· ≤ ·) l

/-- The per-bucket body of `query.values` (part_001:460-477).

Float analysis justifying the exact model of `index := float64(n) * 0.95`:
the nearest double to `0.95` is `0.95·(1+ε)` with `ε < 2⁻⁵³`, so the exact
product is `0.95·n·(1+ε)`.  When `20 ∣ n` the true product `19n/20` is an
integer below `2⁵³`, the relative error `ε` is under half an ulp, and the
rounded product is exactly that integer, so `float64(int64(index)) == index`
holds.  When `20 ∤ n` the true product sits at least `1/20` away from every
integer while the float error is below `n·2⁻⁵² + 1 ≪ 1/20` ulps-worth for
every feasible length, so the equality test fails and
`int64(index) = ⌊19n/20⌋ = 19n/20` (integer division).  Likewise
`index > 1` is exactly `19n > 20`. -/
def finishRow (s : QueryPatternState) : QueryPatternState :=
  let l := sortSamples s.p95
  let n := l.length
  if 1 < n then
    if 20 ∣ n then
      { s with N95Percentile := F64.num ((l.getD (19 * n / 20) 0 : Int) : ℚ) }
    else if 20 < 19 * n then
      { s with N95Percentile :=
          F64.num (((l.getD (19 * n / 20 - 1) 0 + l.getD (19 * n / 20) 0 : Int) : ℚ) / 2) }
    else
      { s with N95Percentile := F64.nan }
  else s

/-- The 95th-percentile computation exactly as the claim states it: sort
ascending, `idx = 0.95·len`; integral `idx ≥ 1` indexes directly, `idx > 1`
averages the two straddling samples, and otherwise (`len ≤ 1`) the result
is NaN.  (`idx = 19n/20` is an integer iff `20 ∣ n`, and `idx ≥ 1` iff
`20 ≤ 19n`.) -/
def claimedP95 (samples : List Int) : F64 :=
  let l := sortSamples samples
  let n := l.length
  if 20 ∣ n ∧ 20 ≤ 19 * n then
    .num ((l.getD (19 * n / 20) 0 : Int) : ℚ)
  else if 20 < 19 * n then
    .num (((l.getD (19 * n / 20 - 1) 0 + l.getD (19 * n / 20) 0 : Int) : ℚ) / 2)
  else
    .nan

/-- The sort-field tags (part_001:173-182). -/
inductive SortField where
  | ns | operation | pattern | count | min | max | n95 | sum
deriving DecidableEq

/-- The default comparator chain set in `query.Prepare` (part_001:249):
`sum, namespace, operation, pattern`. -/
def defaultSortOrder : List SortField :=
  [.sum, .ns, .operation, .pattern]

/-- The equality test the comparator's `continue` is guarded by, per field
(`==` in Go; float semantics for the 95th percentile). -/
def fieldEqRow (f : SortField) (a b : QueryPatternState) : Bool :=
  match f with
  | .ns => a.Namespace == b.Namespace
  | .operation => a.Operation == b.Operation
  | .pattern => a.Pattern == b.Pattern
  | .count => a.Count == b.Count
  | .min => a.Min == b.Min
  | .max => a.Max == b.Max
  | .n95 => f64Eq a.N95Percentile b.N95Percentile
  | .sum => a.Sum == b.Sum

/-- What the comparator returns once a field differs (part_001:356-404):
`<` for the ascending string fields, `>=` for the descending numeric ones
(exactly as written — `>=`, not `>`). -/
def fieldLessRow (f : SortField) (a b : QueryPatternState) : Bool :=
  match f with
  | .ns => decide (a.Namespace < b.Namespace)
  | .operation => decide (a.Operation < b.Operation)
  | .pattern => decide (a.Pattern < b.Pattern)
  | .count => decide (b.Count ≤ a.Count)
  | .min => decide (b.Min ≤ a.Min)
  | .max => decide (b.Max ≤ a.Max)
  | .n95 => f64Ge a.N95Percentile b.N95Percentile
  | .sum => decide (b.Sum ≤ a.Sum)

/-- The `query.sort` comparator (part_001:356-404): walk the field chain,
`continue` past equal fields, decide at the first differing one — and
`return true` when the chain is exhausted (line 402). -/
def patternLess (order : List SortField) (a b : QueryPatternState) : Bool :=
  match order with
  | [] => true
  | f :: rest =>
      if fieldEqRow f a b then patternLess rest a b else fieldLessRow f a b

/-! #### The `query.Run` per-line step (part_001:285-347) -/

/-- The inner message of a CRUD record, as `query.standardize`
(part_001:406-435) pattern-matches it. -/
inductive CrudInner where
  | command (ns op : String) (dur : Int)
  | commandLegacy (ns op : String) (dur : Int)
  | operation (ns op : String) (dur : Int)
  | operationLegacy (ns op : String) (dur : Int)
  | other

/-- `query.standardize`: extract `(namespace, operation, duration)`;
`none` models `ok = false` for an unexpected variant. -/
def standardize : CrudInner → Option (String × String × Int)
  | .command ns op dur => some (ns, op, dur)
  | .commandLegacy ns op dur => some (ns, op, dur)
  | .operation ns op dur => some (ns, op, dur)
  | .operationLegacy ns op dur => some (ns, op, dur)
  | .other => none

/-- A successfully decoded entry's message: either a CRUD message carrying
its inner variant and filter document, or anything else. -/
inductive EntryMessage where
  | nonCrud
  | crud (inner : CrudInner) (filter : List (String × MValue))

/-- What one line of input presents to the `Run` loop body: an empty raw
message, a failed `context.NewEntry`, or a decoded entry. -/
inductive LineOutcome where
  | emptyRaw
  | entryError
  | decoded (m : EntryMessage)

/-- The mutable per-instance state the `Run` loop body touches: the line
and error counters, the number of `summary.Update` calls (the summary
itself is an external collaborator) and the pattern map, modelled as an
association list in insertion order. -/
structure QueryState where
  lineCount : Nat
  errorCount : Nat
  summaryUpdates : Nat
  patterns : List (String × QueryPatternState)

/-- Go map assignment `log.Patterns[key] = v`: replace in place or append. -/
def setPattern : List (String × QueryPatternState) → String →
    QueryPatternState → List (String × QueryPatternState)
  | [], k, v => [(k, v)]
  | (k', v') :: rest, k, v =>
      if k' = k then (k', v) :: rest else (k', v') :: setPattern rest k v

/-- The operations the `switch op` keeps (every listed case has an empty
body — no fallthrough in Go — so all seven proceed; `default` skips). -/
def keptOps : List String :=
  ["find", "count", "update", "getmore", "remove", "findandmodify", "geonear"]

/-- One iteration of the `query.Run` loop body (part_001:285-347): count
the line; an empty raw message or a failed entry decode counts an error;
otherwise update the summary, skip non-CRUD messages silently, count a
standardize failure as an error, filter the lower-cased operation, and
fold the duration into the bucket keyed `ns:op:pattern`. -/
def queryRunStep (log : QueryState) (line : LineOutcome) : QueryState :=
  let log := { log with lineCount := log.lineCount + 1 }
  match line with
  | .emptyRaw => { log with errorCount := log.errorCount + 1 }
  | .entryError => { log with errorCount := log.errorCount + 1 }
  | .decoded m =>
    let log := { log with summaryUpdates := log.summaryUpdates + 1 }
    match m with
    | .nonCrud => log
    | .crud inner filter =>
      let query := StringCompact (NewPattern filter)
      match standardize inner with
      | none => { log with errorCount := log.errorCount + 1 }
      | some (ns, op0, dur) =>
        let op := op0.toLower
        if op ∈ keptOps then
          if op ≠ "" ∧ query ≠ "" then
            let key := ns ++ ":" ++ op ++ ":" ++ query
            let pat := match List.lookup key log.patterns with
              | some p => p
              | none => newQueryPattern ns op query
            { log with patterns := setPattern log.patterns key (queryUpdate pat dur) }
          else log
        else log

/-! ### The mongo JSON-ish parser (spec §4.2)

The implementation of `ParseJson`/`parseNumber` is not part of the source
tree — only its test file (the first half of src/unnamed/part_001) is.  The
parser below is modelled from the spec's relaxed grammar, corrected where
the test file overrules the spec's words: the `strict` flag is consulted at
three extension productions (bareword key, single-quoted string,
`objectid(...)` constructor) — bare regex, which the spec also lists, is in
the test file's both-modes set s1 and therefore not gated — at the
duplicate-key check (spec §4.2's errors table: relaxed last-wins, strict
error), and strict mode requires end-of-input after the top-level document
(`TestParseJson` puts the trailing-whitespace input in the weak-only set
s2).  Results carry a flag recording whether any relaxed-only behavior was
used (a gated production consumed or a duplicate key resolved), which is
what makes "strict differs from relaxed only by ..." a statable
proposition.  Failure is modelled as `Option.none` (the spec's error
*strings* are not distinguished by any claim). -/

/-- A parsed JSON-ish value (spec §3 Value): the numeric variants keep the
32/64-bit distinction of the numeric-promotion rule; doubles are exact
rationals. -/
inductive JsValue where
  | null
  | boolean (b : Bool)
  | int32 (n : Int)
  | int64 (n : Int)
  | double (q : ℚ)
  | str (s : String)
  | regex (pat flags : String)
  | objectId (hex : String)
  | timestamp (t i : Int)
  | date (raw : JsValue)
  | minKey
  | maxKey
  | undefined
  | binary (data ty : String)
  | ref (coll : String) (id : JsValue)
  | obj (fields : List (String × JsValue))
  | arr (elems : List JsValue)

/-- The single-quote character, `'`. -/
def squoteChar : Char := Char.ofNat 39

/-- Skip a run of whitespace (`ChompWS`). -/
def skipWS : List Char → List Char
  | c :: cs =>
      if c = ' ' || c = '\t' || c = '\n' || c = '\r' then skipWS cs else c :: cs
  | [] => []

/-- Read a quoted string after its opening quote `q`; a backslash escapes
the following character (kept verbatim — no claim distinguishes escape
decodings).  `none` on an unterminated string. -/
def parseQuoted (q : Char) (acc : List Char) : List Char → Option (String × List Char)
  | [] => none
  | '\\' :: e :: rest => parseQuoted q (e :: acc) rest
  | c :: rest =>
      if c = q then some (String.mk acc.reverse, rest)
      else parseQuoted q (c :: acc) rest

/-- The longest prefix satisfying `p`, and the rest (`List.span`). -/
def takeSpan (p : Char → Bool) (l : List Char) : List Char × List Char :=
  (l.takeWhile p, l.dropWhile p)

/-- Body of a bare regex after the opening `/`: accumulate up to the
closing `/` (backslash-escaped pairs kept raw, so `\/` does not close),
then take the alphabetic flags.  `none` on an unterminated regex. -/
def regexBody (acc : List Char) : List Char → Option (JsValue × List Char)
  | [] => none
  | '\\' :: e :: rest => regexBody (e :: '\\' :: acc) rest
  | c :: rest =>
      if c = '/' then
        let p := takeSpan Char.isAlpha rest
        some (.regex (String.mk acc.reverse) (String.mk p.1), p.2)
      else regexBody (c :: acc) rest

/-- Hex-digit test for `objectid(...)` payloads and `$oid` strings. -/
def isHexChar (c : Char) : Bool :=
  c.isDigit || ('a' ≤ c && c ≤ 'f') || ('A' ≤ c && c ≤ 'F')

/-- Body of an `objectid(...)` constructor after the opening parenthesis:
24 hex characters parse as the id, a 26-character payload fabricates the
all-zero id, anything else is rejected (spec §3 invariant and §9 quirk:
`objectid(00)` is rejected, 26 zeros give a zero ObjectId). -/
def objectIdBody (cs : List Char) : Option (JsValue × List Char) :=
  let p := takeSpan isHexChar cs
  match p.2 with
  | ')' :: r =>
      if p.1.length = 24 then some (.objectId (String.mk p.1), r)
      else if p.1.length = 26 then
        some (.objectId (String.mk (List.replicate 24 '0')), r)
      else none
  | _ => none

/-- Characters a bareword key may continue with. -/
def isBareChar (c : Char) : Bool :=
  c.isAlphanum || c = '$' || c = '_'

/-! #### Number parsing and promotion (spec §4.2 Numeric promotion) -/

/-- Characters the number scanner slurps. -/
def isNumChar (c : Char) : Bool :=
  c.isDigit || c = '.' || c = 'e' || c = 'E' || c = '+' || c = '-'

/-- Numeric value of a digit character. -/
def digitVal (c : Char) : Nat := c.toNat - 48

/-- Decimal value of a digit run, most significant first. -/
def digitsVal (ds : List Char) : Nat :=
  ds.foldl (fun a c => a * 10 + digitVal c) 0

/-- The integer form `'-'? digit+`, or `none` when the scanned span is not
a plain integer numeral. -/
def intShape : List Char → Option Int
  | [] => none
  | c :: cs =>
      if c = '-' then
        if cs.isEmpty then none
        else if cs.all Char.isDigit then some (-(digitsVal cs : Int)) else none
      else if (c :: cs).all Char.isDigit then some ((digitsVal (c :: cs) : Int)) else none

/-- The double form `'-'? digit+ ('.' digit+)? (('e'|'E') [+-]? digit+)?`,
scanned into its exact signed decimal mantissa and power-of-ten exponent;
`none` when the span does not match the grammar exactly. -/
def doubleParts (cs : List Char) : Option (Int × Int) :=
  let sign : Int × List Char := match cs with
    | '-' :: r => (-1, r)
    | _ => (1, cs)
  let ip := takeSpan Char.isDigit sign.2
  if ip.1.isEmpty then none
  else
    let fp : Option (List Char × List Char) := match ip.2 with
      | '.' :: r =>
          let q := takeSpan Char.isDigit r
          if q.1.isEmpty then none else some (q.1, q.2)
      | r => some ([], r)
    match fp with
    | none => none
    | some (frac, rest2) =>
      let ep : Option (Int × List Char) := match rest2 with
        | 'e' :: r | 'E' :: r =>
          let es : Int × List Char := match r with
            | '+' :: r2 => (1, r2)
            | '-' :: r2 => (-1, r2)
            | r2 => (1, r2)
          let q := takeSpan Char.isDigit es.2
          if q.1.isEmpty then none else some (es.1 * (digitsVal q.1 : Int), q.2)
        | r => some (0, r)
      match ep with
      | none => none
      | some (ex, rest3) =>
          if rest3.isEmpty then
            some ((sign.1 * (digitsVal (ip.1 ++ frac) : Int), ex - (frac.length : Int)))
          else none

/-- The exact rational value `m · 10^e` of a scanned double. -/
def doubleShape (cs : List Char) : Option ℚ :=
  (doubleParts cs).map (fun p => (p.1 : ℚ) * (10 : ℚ) ^ p.2)

/-- Modelled from the spec: `parseNumber` — scan the numeric span; a span
containing `.`/`e`/`E` parses as a double; otherwise the integer is tried
as a 32-bit signed integer first and promoted to a 64-bit signed integer on
overflow (beyond 64 bits it is an error, as `strconv.ParseInt` would
fail). -/
def parseNumber (cs : List Char) : Option (JsValue × List Char) :=
  let p := takeSpan isNumChar cs
  if p.1.isEmpty then none
  else if p.1.any (fun c => c = '.' || c = 'e' || c = 'E') then
    match doubleShape p.1 with
    | some q => some (.double q, p.2)
    | none => none
  else
    match intShape p.1 with
    | some v =>
        if -(2 ^ 31) ≤ v ∧ v < 2 ^ 31 then some (.int32 v, p.2)
        else if -(2 ^ 63) ≤ v ∧ v < 2 ^ 63 then some (.int64 v, p.2)
        else none
    | none => none

/-! #### Extended-type unwrapping (spec §4.2 table) -/

/-- A 24-character hex string (the `$oid` payload). -/
def is24Hex (s : String) : Bool :=
  s.length = 24 && s.data.all isHexChar

/-- An integer-valued `JsValue`, for `$timestamp` components. -/
def asInt : JsValue → Option Int
  | .int32 n => some n
  | .int64 n => some n
  | _ => none

/-- Modelled from the spec's extended-type table: an object matching
exactly one of the wrapper schemas is replaced by the corresponding scalar;
any other object (including operator envelopes) is left as-is. -/
def parseDataType (fields : List (String × JsValue)) : JsValue :=
  match fields with
  | [("$oid", .str s)] => if is24Hex s then .objectId s else .obj fields
  | [("$date", .str s)] => .date (.str s)
  | [("$date", .int32 n)] => .date (.int32 n)
  | [("$date", .int64 n)] => .date (.int64 n)
  | [("$timestamp", .obj [("t", tv), ("i", iv)])] =>
      (match asInt tv, asInt iv with
       | some t, some i => .timestamp t i
       | _, _ => .obj fields)
  | [("$regex", .str p)] => .regex p ""
  | [("$numberLong", .int32 n)] => .int64 n
  | [("$numberLong", .int64 n)] => .int64 n
  | [("$numberLong", .str s)] =>
      (match intShape s.data with
       | some n => .int64 n
       | none => .obj fields)
  | [("$numberDecimal", .int32 n)] => .double (n : ℚ)
  | [("$numberDecimal", .int64 n)] => .double (n : ℚ)
  | [("$numberDecimal", .double q)] => .double q
  | [("$undefined", .boolean true)] => .undefined
  | [("$minKey", .int32 1)] => .minKey
  | [("$maxKey", .int32 1)] => .maxKey
  | [(k1, v1), (k2, v2)] =>
      if k1 = "$regex" ∧ k2 = "$options" then
        match v1, v2 with
        | .str p, .str o => .regex p o
        | _, _ => .obj fields
      else if k1 = "$options" ∧ k2 = "$regex" then
        match v1, v2 with
        | .str o, .str p => .regex p o
        | _, _ => .obj fields
      else if (k1 = "$binary" ∧ k2 = "$type") ∨ (k1 = "$type" ∧ k2 = "$binary") then
        match v1, v2 with
        | .str a, .str b => if k1 = "$binary" then .binary a b else .binary b a
        | _, _ => .obj fields
      else if k1 = "$ref" ∧ k2 = "$id" then
        match v1 with
        | .str c => .ref c v2
        | _ => .obj fields
      else .obj fields
  | _ => .obj fields

/-- Key assignment while members are folded up right-to-left (spec §4.2
errors table, "duplicate key (relaxed: last-wins; strict: error)"): a key
already present among the later members is an error in strict mode, and in
relaxed mode the later occurrence wins and the relaxed-only flag is raised;
a fresh key is prepended.  Keys are unique in the result. -/
def insertField (strict : Bool) (k : String) (v : JsValue)
    (o : List (String × JsValue)) : Option (List (String × JsValue) × Bool) :=
  if (o.lookup k).isSome then
    if strict then none else some (o, true)
  else some ((k, v) :: o, false)

/-- Tag a mode-independent production's result: no extension used. -/
def mapNoExt {α : Type} (X : Option (α × List Char)) : Option (α × List Char × Bool) :=
  X.map (fun p => (p.1, p.2, false))

/-- Tag an extension production's result: extension used. -/
def tagExt {α : Type} (X : Option (α × List Char)) : Option (α × List Char × Bool) :=
  X.map (fun p => (p.1, p.2, true))

/-- A strict-gated production: forbidden in strict mode, extension-flagged
in relaxed mode. -/
def gate {α : Type} (strict : Bool) (X : Option (α × List Char)) :
    Option (α × List Char × Bool) :=
  if strict then none else tagExt X

/-- Consume an exact character sequence, or fail. -/
def expectChars : List Char → List Char → Option (List Char)
  | [], cs => some cs
  | p :: ps, c :: cs => if c = p then expectChars ps cs else none
  | _ :: _, [] => none

/-- The value production selected by the first non-space character. -/
inductive HeadKind where
  | kwTrue | kwFalse | kwNull | ctor | dquote | regexHead
  | objBrace | arrBrack | squote | num | bad
deriving DecidableEq

/-- The first-match dispatch of the value grammar on its head character
(the priority order of the production alternatives). -/
def headKind (c : Char) : HeadKind :=
  if c = 't' then .kwTrue
  else if c = 'f' then .kwFalse
  else if c = 'n' then .kwNull
  else if c = 'o' then .ctor
  else if c = '"' then .dquote
  else if c = '/' then .regexHead
  else if c = '\x7b' then .objBrace
  else if c = '[' then .arrBrack
  else if c = squoteChar then .squote
  else if c.isDigit || c = '-' then .num
  else .bad

/-- One member key: a double-quoted string in both modes; a single-quoted
string or a bareword (letter, `$` or `_` first) only in relaxed mode, where
it raises the extension flag. -/
def parseKey (strict : Bool) (cs : List Char) : Option (String × List Char × Bool) :=
  match skipWS cs with
  | [] => none
  | c :: r =>
      if c = '"' then mapNoExt (parseQuoted '"' [] r)
      else if c = squoteChar then gate strict (parseQuoted squoteChar [] r)
      else if c.isAlpha || c = '$' || c = '_' then
        gate strict (some ((String.mk (takeSpan isBareChar (c :: r)).1,
          (takeSpan isBareChar (c :: r)).2)))
      else none

mutual

/-- Modelled from the spec (§4.2 grammar): one value.  The `strict` flag is
consulted exactly at the single-quote, regex and constructor productions;
the result's Boolean records whether any extension production was used.
Nested objects are passed through the extended-type table. -/
def parseValue (fuel : Nat) (strict : Bool) (cs : List Char) :
    Option (JsValue × List Char × Bool) :=
  match fuel with
  | 0 => none
  | fuel + 1 =>
    match skipWS cs with
    | [] => none
    | c :: r =>
      match headKind c with
      | .kwTrue =>
          mapNoExt ((expectChars ['r', 'u', 'e'] r).map (fun r2 => (JsValue.boolean true, r2)))
      | .kwFalse =>
          mapNoExt ((expectChars ['a', 'l', 's', 'e'] r).map (fun r2 => (JsValue.boolean false, r2)))
      | .kwNull =>
          mapNoExt ((expectChars ['u', 'l', 'l'] r).map (fun r2 => (JsValue.null, r2)))
      | .ctor =>
          gate strict
            (match expectChars ['b', 'j', 'e', 'c', 't', 'i', 'd', '('] r with
             | some r2 => objectIdBody r2
             | none => none)
      | .dquote =>
          mapNoExt ((parseQuoted '"' [] r).map (fun p => (JsValue.str p.1, p.2)))
      | .regexHead =>
          -- Bare regex: the spec calls this a relaxed-only extension, but the
          -- test file lists `\x7b"key": /regex/ \x7d` among the inputs that
          -- must pass BOTH strict and weak mode (s1), so the tests — the
          -- in-tree authority — accept it in strict mode and it is not gated.
          mapNoExt (regexBody [] r)
      | .objBrace =>
          (match skipWS r with
           | [] => none
           | c2 :: r2 =>
             if c2 = '\x7d' then some (.obj [], r2, false)
             else
               match parseMembers fuel strict (c2 :: r2) with
               | some (o, r3, e) => some (parseDataType o, r3, e)
               | none => none)
      | .arrBrack =>
          (match skipWS r with
           | [] => none
           | c2 :: r2 =>
             if c2 = ']' then some (.arr [], r2, false)
             else
               match parseElems fuel strict (c2 :: r2) with
               | some (vs, r3, e) => some (.arr vs, r3, e)
               | none => none)
      | .squote =>
          gate strict ((parseQuoted squoteChar [] r).map (fun p => (JsValue.str p.1, p.2)))
      | .num => mapNoExt (parseNumber (c :: r))
      | .bad => none
termination_by structural fuel

/-- One-or-more object members; the empty object is handled by the caller,
so a member is required after every comma. -/
def parseMembers (fuel : Nat) (strict : Bool) (cs : List Char) :
    Option (List (String × JsValue) × List Char × Bool) :=
  match fuel with
  | 0 => none
  | fuel + 1 =>
    match parseKey strict cs with
    | none => none
    | some (k, r1, e1) =>
      match skipWS r1 with
      | [] => none
      | c :: r2 =>
        if c = ':' then
          match parseValue fuel strict r2 with
          | none => none
          | some (v, r3, e2) =>
            match skipWS r3 with
            | [] => none
            | c2 :: r4 =>
              if c2 = ',' then
                match parseMembers fuel strict r4 with
                | some (o, r5, e3) =>
                    (match insertField strict k v o with
                     | some (o2, e4) => some (o2, r5, ((e1 || e2) || e3) || e4)
                     | none => none)
                | none => none
              else if c2 = '\x7d' then some ([(k, v)], r4, e1 || e2)
              else none
        else none
termination_by structural fuel

/-- One-or-more array elements; the empty array is handled by the caller. -/
def parseElems (fuel : Nat) (strict : Bool) (cs : List Char) :
    Option (List JsValue × List Char × Bool) :=
  match fuel with
  | 0 => none
  | fuel + 1 =>
    match parseValue fuel strict cs with
    | none => none
    | some (v, r1, e1) =>
      match skipWS r1 with
      | [] => none
      | c :: r2 =>
        if c = ',' then
          match parseElems fuel strict r2 with
          | some (vs, r3, e2) => some (v :: vs, r3, e1 || e2)
          | none => none
        else if c = ']' then some ([v], r2, e1)
        else none
termination_by structural fuel

end

/-- The top-level document: a brace-delimited object (the tests reject
top-level arrays and scalars in both modes).  The returned object is the
raw member list — the Go `ParseJson` returns a map, so no extended-type
unwrapping happens at top level. -/
def parseTop (fuel : Nat) (strict : Bool) (cs : List Char) :
    Option (List (String × JsValue) × List Char × Bool) :=
  match skipWS cs with
  | [] => none
  | c :: r =>
    if c = '\x7b' then
      match skipWS r with
      | [] => none
      | c2 :: r2 =>
        if c2 = '\x7d' then some ([], r2, false)
        else parseMembers fuel strict (c2 :: r2)
    else none

/-- Fuel sufficient for any input: each unit of nesting consumes input. -/
def jsonFuel (s : String) : Nat := 2 * s.length + 2

/-- The full result of a `ParseJson` run: object, unconsumed input and the
extension flag, before the strict end-of-input check. -/
def rawParse (strict : Bool) (s : String) :
    Option (List (String × JsValue) × List Char × Bool) :=
  parseTop (jsonFuel s) strict s.data

/-- `mongo.ParseJson` (modelled from the spec and `TestParseJson`): in
strict mode the document must end exactly at end-of-input (the test file
places the trailing-whitespace input in the weak-only set); relaxed mode
ignores whatever follows the document. -/
def ParseJson (strict : Bool) (s : String) : Option (List (String × JsValue)) :=
  match rawParse strict s with
  | some (o, r, _) => if strict ∧ r ≠ [] then none else some o
  | none => none

/-- The grammar-level relationship between the two modes: a strict run is
the relaxed run with every extension-flagged success turned into a
failure.  (`parseValue fuel true cs = maskExt (parseValue fuel false cs)`,
proved below.) -/
def maskExt {α : Type} : Option (α × List Char × Bool) → Option (α × List Char × Bool)
  | some (_, _, true) => none
  | some (v, r, false) => some (v, r, false)
  | none => none

/-!
## Theorems

Helper lemmas first, then the claim theorems with their witnesses and
counterexamples.
-/

/-! ### Strict mode as a mask over relaxed mode -/

theorem maskExt_none {α : Type} : maskExt (α := α) none = none := rfl

theorem maskExt_some_true {α : Type} (v : α) (r : List Char) :
    maskExt (some (v, r, true)) = none := rfl

theorem maskExt_some_false {α : Type} (v : α) (r : List Char) :
    maskExt (some (v, r, false)) = some (v, r, false) := rfl

theorem maskExt_mapNoExt {α : Type} (X : Option (α × List Char)) :
    maskExt (mapNoExt X) = mapNoExt X := by
  cases X with
  | none => rfl
  | some p => rfl

theorem maskExt_tagExt {α : Type} (X : Option (α × List Char)) :
    maskExt (tagExt X) = none := by
  cases X with
  | none => rfl
  | some p => rfl

theorem gate_mask {α : Type} (X : Option (α × List Char)) :
    gate true X = maskExt (gate false X) := by
  simp [gate, maskExt_tagExt]

theorem parseKey_mask (cs : List Char) :
    parseKey true cs = maskExt (parseKey false cs) := by
  simp only [parseKey]
  split
  · exact maskExt_none.symm
  · split_ifs with h1 h2 h3
    · exact (maskExt_mapNoExt _).symm
    · exact gate_mask _
    · exact gate_mask _
    · exact maskExt_none.symm

theorem pv_step (n : Nat)
    (ihm : ∀ cs, parseMembers n true cs = maskExt (parseMembers n false cs))
    (ihe : ∀ cs, parseElems n true cs = maskExt (parseElems n false cs))
    (cs : List Char) :
    parseValue (n + 1) true cs = maskExt (parseValue (n + 1) false cs) := by
  simp only [parseValue]
  split
  · exact maskExt_none.symm
  · rename_i c r heq
    cases headKind c with
    | kwTrue => exact (maskExt_mapNoExt _).symm
    | kwFalse => exact (maskExt_mapNoExt _).symm
    | kwNull => exact (maskExt_mapNoExt _).symm
    | ctor => exact gate_mask _
    | dquote => exact (maskExt_mapNoExt _).symm
    | regexHead => exact (maskExt_mapNoExt _).symm
    | objBrace =>
        cases hws : skipWS r with
        | nil => exact maskExt_none.symm
        | cons c2 r2 =>
          by_cases hc : c2 = '\x7d'
          · simp only [if_pos hc]
            exact (maskExt_some_false _ _).symm
          · simp only [if_neg hc, ihm]
            rcases hm : parseMembers n false (c2 :: r2) with _ | ⟨⟨o, r3, e⟩⟩
            · simp [maskExt_none]
            · cases e <;> simp [maskExt_some_true, maskExt_some_false]
    | arrBrack =>
        cases hws : skipWS r with
        | nil => exact maskExt_none.symm
        | cons c2 r2 =>
          by_cases hc : c2 = ']'
          · simp only [if_pos hc]
            exact (maskExt_some_false _ _).symm
          · simp only [if_neg hc, ihe]
            rcases he : parseElems n false (c2 :: r2) with _ | ⟨⟨vs, r3, e⟩⟩
            · simp [maskExt_none]
            · cases e <;> simp [maskExt_some_true, maskExt_some_false]
    | squote => exact gate_mask _
    | num => exact (maskExt_mapNoExt _).symm
    | bad => exact maskExt_none.symm


theorem pm_step (n : Nat)
    (ihv : ∀ cs, parseValue n true cs = maskExt (parseValue n false cs))
    (cs : List Char)
    (ihm : ∀ cs, parseMembers n true cs = maskExt (parseMembers n false cs)) :
    parseMembers (n + 1) true cs = maskExt (parseMembers (n + 1) false cs) := by
  simp only [parseMembers, parseKey_mask]
  rcases hk : parseKey false cs with _ | ⟨⟨k, r1, e1⟩⟩
  · simp [maskExt_none]
  · cases e1 with
    | true =>
      simp only [maskExt_some_true]
      cases hws : skipWS r1 with
      | nil => simp [maskExt_none]
      | cons c r2 =>
        by_cases hc : c = ':'
        · simp only [if_pos hc, ihv]
          rcases hv : parseValue n false r2 with _ | ⟨⟨v, r3, e2⟩⟩
          · simp [maskExt_none]
          · cases hws2 : skipWS r3 with
            | nil => simp_all [maskExt_none, maskExt_some_true, maskExt_some_false]
            | cons c2 r4 =>
              by_cases hc2 : c2 = ','
              · rcases hm2 : parseMembers n false r4 with _ | ⟨⟨o, r5, e3⟩⟩
                · simp_all [maskExt_none, maskExt_some_true, maskExt_some_false]
                · simp_all only [maskExt_some_true]
                  rcases hins : insertField false k v o with _ | ⟨⟨o2, e4⟩⟩ <;>
                    simp_all [maskExt_none, maskExt_some_true]
              · by_cases hc3 : c2 = '\x7d'
                · cases e2 <;> simp_all [maskExt_some_true, maskExt_some_false]
                · simp_all [maskExt_none, maskExt_some_true, maskExt_some_false]
        · simp only [if_neg hc]
          simp [maskExt_none, maskExt_some_true, maskExt_some_false]
    | false =>
      simp only [maskExt_some_false]
      cases hws : skipWS r1 with
      | nil => simp [maskExt_none]
      | cons c r2 =>
        by_cases hc : c = ':'
        · simp only [if_pos hc, ihv]
          rcases hv : parseValue n false r2 with _ | ⟨⟨v, r3, e2⟩⟩
          · simp [maskExt_none]
          · cases e2 with
            | true =>
              simp only [maskExt_some_true]
              cases hws2 : skipWS r3 with
              | nil => simp [maskExt_none]
              | cons c2 r4 =>
                by_cases hc2 : c2 = ','
                · simp only [if_pos hc2]
                  rcases hm2 : parseMembers n false r4 with _ | ⟨⟨o, r5, e3⟩⟩
                  · simp [maskExt_none]
                  · rcases hins : insertField false k v o with _ | ⟨⟨o2, e4⟩⟩ <;>
                      simp [hins, maskExt_none, maskExt_some_true]
                · by_cases hc3 : c2 = '\x7d'
                  · simp only [if_neg hc2, if_pos hc3]
                    simp [maskExt_some_true]
                  · simp only [if_neg hc2, if_neg hc3]
                    simp [maskExt_none]
            | false =>
              simp only [maskExt_some_false]
              cases hws2 : skipWS r3 with
              | nil => simp [maskExt_none]
              | cons c2 r4 =>
                by_cases hc2 : c2 = ','
                · simp only [if_pos hc2, ihm]
                  rcases hm2 : parseMembers n false r4 with _ | ⟨⟨o, r5, e3⟩⟩
                  · simp [maskExt_none]
                  · cases e3 with
                    | true =>
                      simp only [hm2, maskExt_some_true]
                      rcases hins : insertField false k v o with _ | ⟨⟨o2, e4⟩⟩ <;>
                        simp [hins, maskExt_none, maskExt_some_true]
                    | false =>
                      simp only [hm2, maskExt_some_false]
                      by_cases hdup : (o.lookup k).isSome <;>
                        simp [insertField, hdup, maskExt_none, maskExt_some_true,
                          maskExt_some_false]
                · by_cases hc3 : c2 = '\x7d'
                  · simp only [if_neg hc2, if_pos hc3]
                    simp [maskExt_some_false]
                  · simp only [if_neg hc2, if_neg hc3]
                    simp [maskExt_none]
        · simp only [if_neg hc]
          simp [maskExt_none]

theorem pe_step (n : Nat)
    (ihv : ∀ cs, parseValue n true cs = maskExt (parseValue n false cs))
    (cs : List Char)
    (ihe : ∀ cs, parseElems n true cs = maskExt (parseElems n false cs)) :
    parseElems (n + 1) true cs = maskExt (parseElems (n + 1) false cs) := by
  simp only [parseElems, ihv]
  rcases hv : parseValue n false cs with _ | ⟨⟨v, r1, e1⟩⟩
  · simp [maskExt_none]
  · cases e1 with
    | true =>
      simp only [maskExt_some_true]
      cases hws : skipWS r1 with
      | nil => simp [maskExt_none]
      | cons c r2 =>
        by_cases hc : c = ','
        · simp only [if_pos hc]
          rcases he : parseElems n false r2 with _ | ⟨⟨vs, r3, e2⟩⟩
          · simp [maskExt_none]
          · simp [maskExt_some_true]
        · by_cases hc2 : c = ']'
          · simp only [if_neg hc, if_pos hc2]
            simp [maskExt_some_true]
          · simp only [if_neg hc, if_neg hc2]
            simp [maskExt_none]
    | false =>
      simp only [maskExt_some_false]
      cases hws : skipWS r1 with
      | nil => simp [maskExt_none]
      | cons c r2 =>
        by_cases hc : c = ','
        · simp only [if_pos hc, ihe]
          rcases he : parseElems n false r2 with _ | ⟨⟨vs, r3, e2⟩⟩
          · simp [maskExt_none]
          · cases e2 <;> simp [maskExt_some_true, maskExt_some_false]
        · by_cases hc2 : c = ']'
          · simp only [if_neg hc, if_pos hc2]
            simp [maskExt_some_false]
          · simp only [if_neg hc, if_neg hc2]
            simp [maskExt_none]

theorem jsonMask : ∀ fuel : Nat,
    (∀ cs, parseValue fuel true cs = maskExt (parseValue fuel false cs)) ∧
    (∀ cs, parseMembers fuel true cs = maskExt (parseMembers fuel false cs)) ∧
    (∀ cs, parseElems fuel true cs = maskExt (parseElems fuel false cs)) := by
  intro fuel
  induction fuel with
  | zero =>
      refine ⟨fun cs => ?_, fun cs => ?_, fun cs => ?_⟩ <;>
        simp [parseValue, parseMembers, parseElems, maskExt_none]
  | succ n ih =>
    obtain ⟨ihv, ihm, ihe⟩ := ih
    exact ⟨pv_step n ihm ihe, fun cs => pm_step n ihv cs ihm,
      fun cs => pe_step n ihv cs ihe⟩

theorem parseTop_mask (fuel : Nat) (cs : List Char) :
    parseTop fuel true cs = maskExt (parseTop fuel false cs) := by
  simp only [parseTop]
  split
  · exact maskExt_none.symm
  · rename_i c r heq
    by_cases hc : c = '\x7b'
    · simp only [if_pos hc]
      cases hws : skipWS r with
      | nil => exact maskExt_none.symm
      | cons c2 r2 =>
        by_cases hc2 : c2 = '\x7d'
        · simp only [if_pos hc2]
          exact (maskExt_some_false _ _).symm
        · simp only [if_neg hc2]
          exact (jsonMask fuel).2.1 (c2 :: r2)
    · simp only [if_neg hc]
      exact maskExt_none.symm



/-- The two modes of a full run differ exactly by the mask. -/
theorem rawParse_mask (s : String) : rawParse true s = maskExt (rawParse false s) :=
  parseTop_mask _ _


/-- C3: for every string, if `ParseJson` in strict mode succeeds then
`ParseJson` in relaxed mode succeeds and returns the same value. -/
theorem parseJson_strict_implies_relaxed (s : String) (m : List (String × JsValue)) :
    ParseJson true s = some m → ParseJson false s = some m := by
  intro h
  have hm := rawParse_mask s
  unfold ParseJson at h ⊢
  rcases hraw : rawParse false s with _ | ⟨⟨o, r, e⟩⟩
  · rw [hraw, maskExt_none] at hm
    rw [hm] at h
    exact absurd h (by simp)
  · rw [hraw] at hm
    cases e with
    | true =>
      rw [maskExt_some_true] at hm
      rw [hm] at h
      exact absurd h (by simp)
    | false =>
      rw [maskExt_some_false] at hm
      rw [hm] at h
      by_cases hr : r = []
      · subst hr
        simp only [ne_eq, not_true_eq_false, and_false, if_false] at h
        simp [h]
      · simp [hr] at h

/-- Witness for C3 at the input `\x7b"a":1\x7d`. -/
theorem parseJson_strict_implies_relaxed_witness :
    ParseJson true "\x7b\"a\":1\x7d" = some [("a", JsValue.int32 1)] ∧
    ParseJson false "\x7b\"a\":1\x7d" = some [("a", JsValue.int32 1)] :=
  ⟨rfl, parseJson_strict_implies_relaxed _ _ rfl⟩

/-- C2 counterexample: the claim fails on the code in three ways.  First, a
bare regex input is in the test file's both-modes set: strict mode accepts
`\x7b"key": /regex/ \x7d`, though the claim says every input containing a
bare regex literal must error in strict mode.  Second, the relaxed parse of
the trailing-whitespace input uses no extension at all, yet strict mode
rejects it.  Third, a duplicate object key (spec §4.2's errors table) uses
no extension either, yet strict mode errors on it where relaxed mode
resolves it last-wins — strict does not differ from relaxed *only* by the
four extension productions. -/
theorem strictMode_counterexample :
    ParseJson true "\x7b\"key\": /regex/ \x7d" = some [("key", JsValue.regex "regex" "")] ∧
    rawParse false "\x7b    \"key\"   :    \"value\"    \x7d        " =
      some ([("key", JsValue.str "value")],
        [' ', ' ', ' ', ' ', ' ', ' ', ' ', ' '], false) ∧
    ParseJson true "\x7b    \"key\"   :    \"value\"    \x7d        " = none ∧
    ParseJson false "\x7b\"a\":1,\"a\":2\x7d" = some [("a", JsValue.int32 2)] ∧
    ParseJson true "\x7b\"a\":1,\"a\":2\x7d" = none :=
  ⟨rfl, rfl, rfl, rfl, rfl⟩

/-- C2 (amended): strict mode rejects every input whose relaxed parse
used relaxed-only behavior — consumed one of the three gated extensions
(bareword key, single-quoted string, `objectid(...)` constructor — bare
regex is accepted by both modes per the test file) or resolved a duplicate
object key last-wins (strict mode errors on duplicate keys per spec §4.2's
errors table); that is exactly what the relaxed result's flag records.
Strict mode additionally rejects any input with characters left after the
document, and differs from relaxed mode in no other way: a relaxed success
whose flag is clear and which consumed the whole input is returned
identically by strict mode. -/
theorem strictMode_differences (s : String) (o : List (String × JsValue)) (r : List Char) :
    (rawParse false s = some (o, r, true) → ParseJson true s = none) ∧
    (rawParse false s = some (o, [], false) → ParseJson true s = some o) ∧
    (rawParse false s = some (o, r, false) → r ≠ [] → ParseJson true s = none) := by
  have hm := rawParse_mask s
  refine ⟨fun h => ?_, fun h => ?_, fun h hr => ?_⟩
  · rw [h, maskExt_some_true] at hm
    unfold ParseJson
    rw [hm]
  · rw [h, maskExt_some_false] at hm
    unfold ParseJson
    rw [hm]
    simp
  · rw [h, maskExt_some_false] at hm
    unfold ParseJson
    rw [hm]
    simp [hr]

/-- Witness for C2 (amended) at a bareword-key input, a duplicate-key
input, a trailing-space input and a clean input. -/
theorem strictMode_differences_witness :
    ParseJson true "\x7bkey:\"value\"\x7d" = none ∧
    ParseJson true "\x7b\"a\":1,\"a\":2\x7d" = none ∧
    ParseJson true "\x7b\"a\":1\x7d " = none ∧
    ParseJson true "\x7b\"b\":2\x7d" = some [("b", JsValue.int32 2)] := by
  refine ⟨(strictMode_differences _ [("key", JsValue.str "value")] []).1 rfl,
    (strictMode_differences _ [("a", JsValue.int32 2)] []).1 rfl, ?_, ?_⟩
  · exact (strictMode_differences _ [("a", JsValue.int32 1)] [' ']).2.2 rfl (by simp)
  · exact (strictMode_differences _ [("b", JsValue.int32 2)] []).2.1 rfl

theorem digitsVal_foldl (ds : List Char) : ∀ a : Nat,
    ds.foldl (fun a c => a * 10 + digitVal c) a =
      a * 10 ^ ds.length + Nat.ofDigits 10 ((ds.map digitVal).reverse) := by
  induction ds with
  | nil => intro a; simp [Nat.ofDigits_nil]
  | cons d tl ih =>
    intro a
    have hlen : ((tl.map digitVal).reverse).length = tl.length := by simp
    calc (d :: tl).foldl (fun a c => a * 10 + digitVal c) a
        = tl.foldl (fun a c => a * 10 + digitVal c) (a * 10 + digitVal d) := by simp
      _ = (a * 10 + digitVal d) * 10 ^ tl.length +
            Nat.ofDigits 10 ((tl.map digitVal).reverse) := ih _
      _ = a * 10 ^ (d :: tl).length +
            Nat.ofDigits 10 (((d :: tl).map digitVal).reverse) := by
          simp only [List.map_cons, List.reverse_cons, Nat.ofDigits_append,
            List.length_cons, hlen, Nat.ofDigits_singleton]
          ring

theorem digitsVal_ofDigits (ds : List Char) :
    digitsVal ds = Nat.ofDigits 10 ((ds.map digitVal).reverse) := by
  have h := digitsVal_foldl ds 0
  simpa [digitsVal] using h

theorem takeSpan_all {p : Char → Bool} {l : List Char} (h : ∀ c ∈ l, p c = true) :
    takeSpan p l = (l, []) := by
  simp [takeSpan, List.takeWhile_eq_self_iff.mpr h, List.dropWhile_eq_nil_iff.mpr h]

theorem digit_isNumChar {c : Char} (h : c.isDigit = true) : isNumChar c = true := by
  simp [isNumChar, h]

theorem digit_not_special {c : Char} (h : c.isDigit = true) :
    ((c = '.' || c = 'e' || c = 'E') = true) → False := by
  intro hc
  simp only [Bool.or_eq_true, decide_eq_true_eq] at hc
  rcases hc with (rfl | rfl) | rfl <;> simp at h

theorem digit_ne_minus {c : Char} (h : c.isDigit = true) : ¬(c = '-') := by
  rintro rfl; simp at h

theorem intShape_digits (ds : List Char) (h1 : ds ≠ []) (h2 : ∀ c ∈ ds, c.isDigit = true) :
    intShape ds = some ((digitsVal ds : Int)) := by
  cases ds with
  | nil => exact absurd rfl h1
  | cons d tl =>
    have hd := digit_ne_minus (h2 d (by simp))
    rw [intShape, if_neg hd, if_pos (List.all_eq_true.mpr h2)]

theorem parseNumber_digits (ds : List Char) (h1 : ds ≠ []) (h2 : ∀ c ∈ ds, c.isDigit = true) :
    parseNumber ds =
      (if (digitsVal ds : Int) < 2 ^ 31 then some (.int32 (digitsVal ds : Int), [])
       else if (digitsVal ds : Int) < 2 ^ 63 then some (.int64 (digitsVal ds : Int), [])
       else none) := by
  have hspan : takeSpan isNumChar ds = (ds, []) :=
    takeSpan_all (fun c hc => digit_isNumChar (h2 c hc))
  have hany : ds.any (fun c => c = '.' || c = 'e' || c = 'E') = false := by
    simp only [List.any_eq_false]
    exact fun c hc => fun hcc => digit_not_special (h2 c hc) hcc
  have h0 : (0 : Int) ≤ (digitsVal ds : Int) := Int.ofNat_nonneg _
  rw [parseNumber]
  simp only [hspan]
  rw [if_neg (by simp [h1]), hany]
  simp only [Bool.false_eq_true, if_false, intShape_digits ds h1 h2]
  by_cases h31 : (digitsVal ds : Int) < 2 ^ 31
  · rw [if_pos ⟨by omega, h31⟩, if_pos h31]
  · rw [if_neg (by omega), if_neg h31]
    by_cases h63 : (digitsVal ds : Int) < 2 ^ 63
    · rw [if_pos ⟨by omega, h63⟩, if_pos h63]
    · rw [if_neg (by omega), if_neg h63]


theorem intShape_neg_digits (ds : List Char) (h1 : ds ≠ [])
    (h2 : ∀ c ∈ ds, c.isDigit = true) :
    intShape ('-' :: ds) = some (-(digitsVal ds : Int)) := by
  rw [intShape, if_pos rfl, if_neg (by simp [h1]), if_pos (List.all_eq_true.mpr h2)]

theorem parseNumber_neg_digits (ds : List Char) (h1 : ds ≠ [])
    (h2 : ∀ c ∈ ds, c.isDigit = true) :
    parseNumber ('-' :: ds) =
      (if -(2 ^ 31) ≤ -(digitsVal ds : Int) then some (.int32 (-(digitsVal ds : Int)), [])
       else if -(2 ^ 63) ≤ -(digitsVal ds : Int) then some (.int64 (-(digitsVal ds : Int)), [])
       else none) := by
  have hspan : takeSpan isNumChar ('-' :: ds) = ('-' :: ds, []) := by
    refine takeSpan_all ?_
    intro c hc
    rcases List.mem_cons.mp hc with rfl | hc
    · rfl
    · exact digit_isNumChar (h2 c hc)
  have hany : ('-' :: ds).any (fun c => c = '.' || c = 'e' || c = 'E') = false := by
    simp only [List.any_eq_false]
    intro c hc
    rcases List.mem_cons.mp hc with rfl | hc
    · simp
    · exact fun hcc => digit_not_special (h2 c hc) hcc
  have h0 : (0 : Int) ≤ (digitsVal ds : Int) := Int.ofNat_nonneg _
  rw [parseNumber]
  simp only [hspan]
  rw [if_neg (by simp), hany]
  simp only [Bool.false_eq_true, if_false, intShape_neg_digits ds h1 h2]
  by_cases h31 : -(2 ^ 31) ≤ -(digitsVal ds : Int)
  · rw [if_pos ⟨h31, by omega⟩, if_pos h31]
  · rw [if_neg (by omega), if_neg h31]
    by_cases h63 : -(2 ^ 63) ≤ -(digitsVal ds : Int)
    · rw [if_pos ⟨h63, by omega⟩, if_pos h63]
    · rw [if_neg (by omega), if_neg h63]

theorem parseNumber_double_kind (cs : List Char) (v : JsValue) (r : List Char)
    (h : parseNumber cs = some (v, r))
    (hd : (takeSpan isNumChar cs).1.any (fun c => c = '.' || c = 'e' || c = 'E') = true) :
    ∃ q : ℚ, v = JsValue.double q := by
  simp only [parseNumber] at h
  repeat' split at h
  all_goals
    first
      | (rename_i q hq
         exact ⟨q, (congrArg Prod.fst ((Option.some.injEq _ _).mp h)).symm⟩)
      | exact absurd h (by simp)


/-- C5: every integer-looking token is first attempted as a 32-bit signed
integer and promoted to a 64-bit signed integer on overflow (with the
numeral's value the standard base-10 reading of its digits), every
successfully parsed token whose numeric span contains `.`, `e` or `E`
yields a double, and in particular `10e2` parses as the double `1000.0`. -/
theorem parseNumber_promotion :
    (∀ ds : List Char, ds ≠ [] → (∀ c ∈ ds, c.isDigit = true) →
      parseNumber ds =
        (if (digitsVal ds : Int) < 2 ^ 31 then some (.int32 (digitsVal ds : Int), [])
         else if (digitsVal ds : Int) < 2 ^ 63 then some (.int64 (digitsVal ds : Int), [])
         else none) ∧
      parseNumber ('-' :: ds) =
        (if -(2 ^ 31) ≤ -(digitsVal ds : Int) then some (.int32 (-(digitsVal ds : Int)), [])
         else if -(2 ^ 63) ≤ -(digitsVal ds : Int) then some (.int64 (-(digitsVal ds : Int)), [])
         else none) ∧
      digitsVal ds = Nat.ofDigits 10 ((ds.map digitVal).reverse)) ∧
    (∀ cs v r, parseNumber cs = some (v, r) →
      (takeSpan isNumChar cs).1.any (fun c => c = '.' || c = 'e' || c = 'E') = true →
      ∃ q : ℚ, v = JsValue.double q) ∧
    parseNumber ('1' :: '0' :: 'e' :: '2' :: []) = some (.double 1000, []) := by
  refine ⟨fun ds h1 h2 => ⟨parseNumber_digits ds h1 h2, parseNumber_neg_digits ds h1 h2,
    digitsVal_ofDigits ds⟩, parseNumber_double_kind, ?_⟩
  have hparts : doubleParts ['1', '0', 'e', '2'] = some (10, 2) := rfl
  have hds : doubleShape ['1', '0', 'e', '2'] = some 1000 := by
    rw [doubleShape, hparts]
    norm_num
  rw [parseNumber]
  simp only [show takeSpan isNumChar ['1', '0', 'e', '2'] = (['1', '0', 'e', '2'], []) from rfl]
  rw [if_neg (by decide),
    show (['1', '0', 'e', '2'].any fun c => c = '.' || c = 'e' || c = 'E') = true from rfl]
  simp only [if_true, hds]

/-- Witness for C5 at the three boundary numerals of the test file. -/
theorem parseNumber_promotion_witness :
    parseNumber ('2' :: '1' :: '4' :: '7' :: '4' :: '8' :: '3' :: '6' :: '4' :: '7' :: []) =
      some (.int32 2147483647, []) ∧
    parseNumber ('2' :: '1' :: '4' :: '7' :: '4' :: '8' :: '3' :: '6' :: '4' :: '8' :: []) =
      some (.int64 2147483648, []) ∧
    parseNumber ('-' :: '2' :: '1' :: '4' :: '7' :: '4' :: '8' :: '3' :: '6' :: '4' :: '9' :: []) =
      some (.int64 (-2147483649), []) := by
  refine ⟨?_, ?_, ?_⟩
  · exact ((parseNumber_promotion.1 _ (by decide) (by decide)).1).trans (by rfl)
  · exact ((parseNumber_promotion.1 _ (by decide) (by decide)).1).trans (by rfl)
  · exact ((parseNumber_promotion.1 _ (by decide) (by decide)).2.1).trans (by rfl)


/-- C7: pattern canonicalization maps the operand of a `$in`, `$nin` or
`$all` operator to the single sentinel `V` whatever the operand is; in
particular `NewPattern` on the filter `\x7b"a": \x7b"$in": [5,5,5]\x7d\x7d`
yields the pattern `\x7b"a": \x7b"$in": V\x7d\x7d`, whose compact string
form is `\x7ba:\x7b$in:V\x7d\x7d`. -/
theorem newPattern_collapse_in :
    (∀ (k : String) (val : MValue) (rest : List (String × MValue)),
      isCollapseList k = true →
        canonEnvelope ((k, val) :: rest) = (k, MValue.v) :: canonEnvelope rest) ∧
    NewPattern [("a", .obj [("$in", .arr [.int 5, .int 5, .int 5])])] =
      ⟨[("a", .obj [("$in", MValue.v)])], true⟩ ∧
    StringCompact (NewPattern [("a", .obj [("$in", .arr [.int 5, .int 5, .int 5])])]) =
      "\x7ba:\x7b$in:V\x7d\x7d" := by
  refine ⟨fun k val rest h => ?_, rfl, rfl⟩
  rw [canonEnvelope, if_pos h]

/-- Witness for C7: the cons-step applied at a concrete `$nin` field. -/
theorem newPattern_collapse_in_witness :
    canonEnvelope [("$nin", MValue.int 7)] = [("$nin", MValue.v)] := by
  rw [newPattern_collapse_in.1 "$nin" (MValue.int 7) [] (by decide)]
  rfl


/-- C10: a successfully decoded entry whose message is not CRUD increments
the line counter and updates the summary, and leaves the error counter and
the pattern map unchanged. -/
theorem queryRunStep_nonCrud (log : QueryState) :
    (queryRunStep log (.decoded .nonCrud)).lineCount = log.lineCount + 1 ∧
    (queryRunStep log (.decoded .nonCrud)).summaryUpdates = log.summaryUpdates + 1 ∧
    (queryRunStep log (.decoded .nonCrud)).errorCount = log.errorCount ∧
    (queryRunStep log (.decoded .nonCrud)).patterns = log.patterns :=
  ⟨rfl, rfl, rfl, rfl⟩

theorem queryUpdate_p95_append (s : QueryPatternState) (dur : Int) :
    (queryUpdate s dur).p95 = s.p95 ++ [dur] := by
  simp only [queryUpdate]
  split_ifs <;> rfl

theorem iterUpdate_length (dur : Int) (k : Nat) :
    ∀ s : QueryPatternState,
      ((fun st => queryUpdate st dur)^[k] s).p95.length = s.p95.length + k := by
  induction k with
  | zero => intro s; simp
  | succ m ih =>
      intro s
      rw [Function.iterate_succ_apply, ih, queryUpdate_p95_append]
      simp
      omega

/-- C4 counterexample: feeding `N95MaxSamples + 1` samples into one bucket
leaves more than `N95MaxSamples` entries in the vector — nothing is ever
discarded. -/
theorem queryUpdate_cap_counterexample :
    N95MaxSamples <
      (((fun st => queryUpdate st 7)^[N95MaxSamples + 1])
        (newQueryPattern "db.c" "find" "q")).p95.length := by
  rw [iterUpdate_length]
  simp [newQueryPattern]

/-- C4 (amended): `N95MaxSamples` is only the initial capacity hint of the
sample vector; `query.update` appends unconditionally, so a bucket already
holding `N95MaxSamples` samples still grows past the constant. -/
theorem queryUpdate_no_cap (s : QueryPatternState) (dur : Int) :
    (queryUpdate s dur).p95 = s.p95 ++ [dur] ∧
    (s.p95.length = N95MaxSamples →
      (queryUpdate s dur).p95.length = N95MaxSamples + 1) := by
  refine ⟨queryUpdate_p95_append s dur, fun h => ?_⟩
  rw [queryUpdate_p95_append]
  simp [h]

/-- Witness for C4 (amended): a bucket exactly at the constant grows. -/
theorem queryUpdate_no_cap_witness :
    (queryUpdate
        { newQueryPattern "db" "find" "q" with p95 := List.replicate N95MaxSamples 0 }
        7).p95.length = N95MaxSamples + 1 :=
  (queryUpdate_no_cap _ 7).2 (by simp)

/-- C6 counterexample: on two rows equal in every field of the default
chain, the comparator returns `true` (it reports the first row as ordered
before the second) instead of treating them as equal. -/
theorem patternLess_counterexample :
    (∀ g ∈ defaultSortOrder,
      fieldEqRow g (newQueryPattern "db" "find" "q") (newQueryPattern "db" "find" "q") = true) ∧
    patternLess defaultSortOrder (newQueryPattern "db" "find" "q")
      (newQueryPattern "db" "find" "q") = true := by
  constructor
  · decide
  · rfl

/-- C6 (amended): the comparator decides at the first field of the chain on
which the rows differ, and when every field compares equal it returns
`true` — a non-antisymmetric answer (under Go's unstable `sort.Slice` the
input order of fully tied rows is therefore not guaranteed to be kept). -/
theorem patternLess_first_diff :
    (∀ (pre : List SortField) (f : SortField) (post : List SortField)
        (a b : QueryPatternState),
      (∀ g ∈ pre, fieldEqRow g a b = true) → fieldEqRow f a b = false →
        patternLess (pre ++ f :: post) a b = fieldLessRow f a b) ∧
    (∀ (order : List SortField) (a b : QueryPatternState),
      (∀ g ∈ order, fieldEqRow g a b = true) → patternLess order a b = true) := by
  constructor
  · intro pre f post a b hpre hf
    induction pre with
    | nil => simp [patternLess, hf]
    | cons g t ih =>
        rw [List.cons_append, patternLess, if_pos (hpre g (by simp))]
        exact ih (fun g' hg' => hpre g' (by simp [hg']))
  · intro order a b h
    induction order with
    | nil => rfl
    | cons g t ih =>
        rw [patternLess, if_pos (h g (by simp))]
        exact ih (fun g' hg' => h g' (by simp [hg']))

/-- Witness for C6 (amended): namespace ties, count decides. -/
theorem patternLess_first_diff_witness :
    patternLess [SortField.ns, SortField.count]
      { newQueryPattern "db" "find" "q" with Count := 5 }
      { newQueryPattern "db" "find" "q" with Count := 3 } = true := by
  rw [show ([SortField.ns, SortField.count] : List SortField)
        = [SortField.ns] ++ SortField.count :: [] from rfl,
    patternLess_first_diff.1 [SortField.ns] SortField.count [] _ _
      (by decide) (by decide)]
  decide


/-- C8 counterexample: a base line with a ctime-formatted date (CString
set), a recognized severity and a non-empty component passes the 3.6 and
4.0 `Check` guards — they do not reject ctime dates as the claim states. -/
theorem versionCheck_counterexample :
    version36Check ⟨true, .letter 'I', .letter 'I', "COMMAND"⟩ = true ∧
    version40Check ⟨true, .letter 'I', .letter 'I', "COMMAND"⟩ = true ∧
    (⟨true, .letter 'I', .letter 'I', "COMMAND"⟩ : BaseRec).cString = true :=
  ⟨rfl, rfl, rfl⟩

/-- C8 (amended): every version-3.4-or-later `Check` returns true exactly
when the severity is recognized and the raw component is non-empty; only
the 3.4 parser additionally requires a non-ctime date, while the 3.6 and
4.0 guards ignore the `CString` flag entirely. -/
theorem versionCheck_guards (base : BaseRec) :
    (version34Check base = true ↔
      base.cString = false ∧ base.rawSeverity ≠ Severity.none ∧
        base.rawComponent ≠ "") ∧
    (version36Check base = true ↔
      base.rawSeverity ≠ Severity.none ∧ base.rawComponent ≠ "") ∧
    (version40Check base = true ↔
      base.severity ≠ Severity.none ∧ base.rawComponent ≠ "") ∧
    (∀ b : Bool, version36Check { base with cString := b } = version36Check base) ∧
    (∀ b : Bool, version40Check { base with cString := b } = version40Check base) := by
  refine ⟨?_, ?_, ?_, fun b => rfl, fun b => rfl⟩ <;>
    simp [version34Check, version36Check, version40Check, Bool.and_eq_true,
      Bool.not_eq_true', and_assoc]

/-- Witness for C8 (amended) at a concrete ctime-flagged base record. -/
theorem versionCheck_guards_witness :
    version34Check ⟨false, .letter 'I', .letter 'I', "COMMAND"⟩ = true ∧
    version36Check ⟨true, .letter 'W', .letter 'W', "WRITE"⟩ = true := by
  constructor
  · exact (versionCheck_guards _).1.mpr ⟨rfl, by decide, by decide⟩
  · exact (versionCheck_guards _).2.1.mpr ⟨by decide, by decide⟩

theorem joinWords_ne_empty (t0 t1 t2 t3 : String) :
    joinWords [t0, t1, t2, t3] ≠ "" := by
  intro hcontra
  have hlen := congrArg String.length hcontra
  rw [show joinWords [t0, t1, t2, t3] = t0 ++ " " ++ joinWords [t1, t2, t3] from rfl] at hlen
  simp [String.length_append] at hlen
  exact absurd hlen.1.2 (by decide)

/-- C9: with a weekday first word, the four-token ctime date is rejected
(cursor reset, empty raw date, `ErrorParsingDate` in `NewBase`) exactly
when the month and numeric-day tokens are valid but the fourth token is not
a time; an invalid month or a non-numeric day still yields the joined raw
date. -/
theorem parseCDateString_reject (ws : List String)
    (hday : isDay (cdateWord ws 0) = true) :
    (parseCDateString ws = "" ↔
      isMonth (cdateWord ws 1) = true ∧ isNumeric (cdateWord ws 2) = true ∧
        isTime (cdateWord ws 3) = false) ∧
    (isMonth (cdateWord ws 1) = false ∨ isNumeric (cdateWord ws 2) = false →
      parseCDateString ws =
        joinWords [cdateWord ws 0, cdateWord ws 1, cdateWord ws 2, cdateWord ws 3]) ∧
    (∀ iso : Bool, parseCDateString ws = "" →
      newBaseDate ws iso = Except.error "unrecognized date format") := by
  have hne := joinWords_ne_empty (cdateWord ws 0) (cdateWord ws 1) (cdateWord ws 2)
    (cdateWord ws 3)
  refine ⟨?_, ?_, fun iso h => ?_⟩
  · simp only [parseCDateString]
    rw [if_neg (by simp [hday])]
    by_cases hm : isMonth (cdateWord ws 1)
    · rw [if_neg (by simp [hm])]
      by_cases hn : isNumeric (cdateWord ws 2)
      · rw [if_neg (by simp [hn])]
        by_cases ht : isTime (cdateWord ws 3)
        · rw [if_neg (by simp [ht])]
          simp [hne, hm, hn, ht]
        · rw [if_pos (by simp [ht])]
          simp [hm, hn, ht]
      · rw [if_pos (by simp [hn])]
        simp [hne, hn]
    · rw [if_pos (by simp [hm])]
      simp [hne, hm]
  · intro hbad
    simp only [parseCDateString]
    rw [if_neg (by simp [hday])]
    rcases hbad with hm | hn
    · rw [if_pos (by simp [hm])]
    · by_cases hm : isMonth (cdateWord ws 1)
      · rw [if_neg (by simp [hm]), if_pos (by simp [hn])]
      · rw [if_pos (by simp [hm])]
  · rw [newBaseDate, if_pos hday, if_pos (Or.inr h)]

/-- Witness for C9: a bad clock token is rejected; a bad month token is
still accepted as a raw ctime date. -/
theorem parseCDateString_reject_witness :
    parseCDateString ["Sun", "Jan", "02", "bad"] = "" ∧
    parseCDateString ["Sun", "Foo", "02", "15:04:05"] = "Sun Foo 02 15:04:05" := by
  constructor
  · exact (parseCDateString_reject _ (by decide)).1.mpr (by decide)
  · have h := (parseCDateString_reject ["Sun", "Foo", "02", "15:04:05"]
      (by decide)).2.1 (Or.inl (by decide))
    rw [h]
    rfl


/-- C1 counterexample: a bucket with exactly one sample.  The claim says
p95 becomes NaN when `len ≤ 1`; the code's `values` only computes a
percentile when `len > 1`, so the field keeps its default `0.0` (the NaN
assignment is unreachable: for `len ≥ 2` the index `0.95·len ≥ 1.9 > 1`). -/
theorem finishRow_p95_counterexample :
    (finishRow { newQueryPattern "db.c" "find" "q" with p95 := [5] }).N95Percentile
      = F64.num 0 ∧
    claimedP95 [5] = F64.nan ∧ F64.num 0 ≠ F64.nan := by
  refine ⟨rfl, ?_, by decide⟩
  rfl

/-- C1 (amended): at `Finish` the sample vector is sorted ascending and,
when it holds at least two samples, the 95th percentile is computed exactly
as the claim states (integral index `0.95·len` selects directly, otherwise
the two straddling samples are averaged); when `len ≤ 1` the percentile
field is left at its previous value — it is not set to NaN. -/
theorem finishRow_p95 (s : QueryPatternState) :
    (finishRow s).N95Percentile =
      (if s.p95.length ≤ 1 then s.N95Percentile else claimedP95 s.p95) ∧
    List.Sorted (· ≤ ·) (sortSamples s.p95) := by
  constructor
  · have hlen : (sortSamples s.p95).length = s.p95.length := by
      simp [sortSamples, List.length_insertionSort]
    simp only [finishRow, claimedP95, hlen]
    split_ifs with h1 h2 h3 h4 h5 <;> first | rfl | omega
  · exact List.sorted_insertionSort _ _


end Mgotools
